import Mathlib

/-!
Verification of the tanoshi extension host and content cache orchestrator
(`src/tanoshi/src/extension/manga.rs`) against its natural-language
specification.

Modelling conventions:
* Rust `panic!` sites (`.unwrap()` on `None`/`Err`, out-of-bounds indexing)
  are modelled by `Option.none` or by the `Failure.panicked` constructor of
  the `Failure` type; typed errors the Rust code actually returns
  (`anyhow!`, `warp::reject`, `TransactionReject`) are `Failure.err`.
* Network I/O is modelled by passing the remote data (catalog, provider
  output) as explicit arguments.
* The persistent store (`Repository`, whose source is not part of the
  verified tree) is modelled from the spec as a pure `Store` value with
  insert-ignore-conflict writes; each such definition is marked
  `Modelled from the spec:`.
-/

/-- A failure outcome of a service call.  `err` is a typed error value the
Rust code returns to its caller; `panicked` models a Rust panic (an
`unwrap` of `None`/`Err` or an out-of-bounds index), which never reaches the
caller as a typed value. -/
inductive Failure where
  | err : String → Failure
  | panicked : String → Failure
deriving DecidableEq, Repr

/-- `true` exactly on typed error outcomes (`Failure.err`). -/
def Failure.isTyped : Failure → Bool
  | .err _ => true
  | .panicked _ => false

/-! ## Version parsing (`v.parse::<i32>()` and `split(".")`) -/

/-- Value of an ASCII digit, `none` for any other character. -/
def digitVal (c : Char) : Option Nat :=
  if '0' ≤ c ∧ c ≤ '9' then some (c.toNat - 48) else none

/-- Parse a nonempty all-digit character list as a natural number. -/
def parseNatCore : List Char → Option Nat
  | [] => none
  | cs =>
    cs.foldl (fun acc c => do
      let a ← acc
      let d ← digitVal c
      pure (a * 10 + d)) (some 0)

/-- Rust `str::parse::<i32>()`: optional sign, then one or more ASCII
digits, value within `i32` bounds; anything else is `Err` (here `none`). -/
def parseI32 (s : String) : Option Int := do
  let v : Int ←
    match s.data with
    | '+' :: rest => do let n ← parseNatCore rest; pure (n : Int)
    | '-' :: rest => do let n ← parseNatCore rest; pure (-(n : Int))
    | cs => do let n ← parseNatCore cs; pure (n : Int)
  if -2147483648 ≤ v ∧ v ≤ 2147483647 then pure v else none

/-- Split a character list at every occurrence of `sep`; the accumulator
holds the current segment reversed. -/
def splitOnCharAux (sep : Char) : List Char → List Char → List (List Char)
  | [], acc => [acc.reverse]
  | c :: cs, acc =>
    if c = sep then acc.reverse :: splitOnCharAux sep cs []
    else splitOnCharAux sep cs (c :: acc)

/-- Rust `str::split` for a single-character separator. -/
def splitOnChar (sep : Char) (s : String) : List String :=
  (splitOnCharAux sep s.data []).map String.mk

/-- `s.split(".").map(|v| v.parse::<i32>().unwrap()).collect()`: `none`
models the panic on the first component that fails to parse. -/
def parseVersion (s : String) : Option (List Int) :=
  (splitOnChar '.' s).mapM parseI32

/-! ## Source catalog annotation (`Manga::list_sources`) -/

/-- A remote catalog record (`tanoshi_lib::manga::SourceIndex`), with the
annotation fields (`installed`, `installed_version`, `update`) that
`list_sources` mutates in place. -/
structure SourceIndex where
  name : String
  path : String
  version : String
  core_version : String
  rustc_version : String
  installed : Bool
  installed_version : String
  update : Bool
deriving DecidableEq, Repr

/-- The information a loaded extension reports (`ext.info()`): only the
`version` field is consulted by `list_sources`. -/
structure ExtInfo where
  version : String
deriving DecidableEq, Repr

/-- Indexing `v[i]` on a `Vec`: `none` models the Rust panic when the index
is out of bounds. -/
def idx (l : List Int) (i : Nat) : Option Int := l.get? i

/-- The version-comparison ladder of `list_sources` (manga.rs lines 60–71),
with Rust `&&` short-circuit evaluation order preserved so that a list
element is only demanded (`idx`) when the Rust code would index it.
Starting flag `u0` is the entry's incoming `update` field, which the ladder
only ever sets to `true`, never clears. -/
def updateLadder (iv av : List Int) (u0 : Bool) : Option Bool := do
  let i0 ← idx iv 0
  let a0 ← idx av 0
  if i0 < a0 then pure true
  else if i0 = a0 then do
    let i1 ← idx iv 1
    let a1 ← idx av 1
    if i1 < a1 then pure true
    else if i1 = a1 then do
      let i2 ← idx iv 2
      let a2 ← idx av 2
      if i2 < a2 then pure true else pure u0
    else pure u0
  else pure u0

/-- One iteration of the `list_sources` annotation closure (manga.rs lines
45–79): if an extension named `s.name` is loaded, set `installed`,
`installed_version`, run the version ladder, then force `update := false`
on any core/rustc version mismatch with the host; otherwise return the
entry unchanged.  `none` models a panic inside the closure. -/
def annotateEntry (exts : String → Option ExtInfo) (hostCore hostRustc : String)
    (s : SourceIndex) : Option SourceIndex :=
  match exts s.name with
  | none => some s
  | some ext => do
    let iv ← parseVersion ext.version
    let av ← parseVersion s.version
    let upd ← updateLadder iv av s.update
    let upd := if s.core_version ≠ hostCore ∨ s.rustc_version ≠ hostRustc then false else upd
    pure { s with installed := true, installed_version := ext.version, update := upd }

/-- `Manga::list_sources` with the remote catalog passed in: annotate every
entry; `none` models a panic while processing any entry. -/
def list_sources (exts : String → Option ExtInfo) (hostCore hostRustc : String)
    (catalog : List SourceIndex) : Option (List SourceIndex) :=
  catalog.mapM (annotateEntry exts hostCore hostRustc)

/-- Strict lexicographic order on version triples: the first component
where the left side is smaller decides. -/
def lexLt (a b c d e f : Int) : Bool :=
  a < d ∨ (a = d ∧ b < e) ∨ (a = d ∧ b = e ∧ c < f)

/-! ## Persistent store model

The `Repository` implementation is not part of the verified tree; the row
operations below are modelled from the spec (§3, §6): row-level
insert-ignore-conflict on the natural keys (source, path), (manga, chapter
number), (chapter, rank); point lookups by surrogate id. -/

/-- A cached manga row: natural key (source, path), surrogate `id`. -/
structure MangaRow where
  id : Int
  source : String
  title : String
  path : String
  thumbnail : String
  author : List String
  status : Option String
  description : Option String
deriving DecidableEq, Repr

/-- A cached chapter row: natural key (manga_id, number), surrogate `id`;
`source` is denormalised from the owning manga. -/
structure ChapterRow where
  id : Int
  manga_id : Int
  source : String
  number : String
  path : String
deriving DecidableEq, Repr

/-- A cached page row: natural key (chapter_id, rank), surrogate `id`. -/
structure PageRow where
  id : Int
  chapter_id : Int
  rank : Int
  url : String
deriving DecidableEq, Repr

/-- The persistent store: the three cache tables. -/
structure Store where
  mangas : List MangaRow
  chapters : List ChapterRow
  pages : List PageRow
deriving DecidableEq, Repr

/-- Provider output for a catalog listing: shared metadata only. -/
structure MangaData where
  title : String
  path : String
  thumbnail : String
deriving DecidableEq, Repr

/-- Provider output for a manga detail fetch. -/
structure MangaDetailData where
  author : List String
  status : Option String
  description : Option String
deriving DecidableEq, Repr

/-- Provider output for a chapter listing. -/
structure ChapterData where
  number : String
  path : String
deriving DecidableEq, Repr

/-- Modelled from the spec: surrogate integer id assigned at first cache
insert — one more than the largest id in the table. -/
def freshMangaId (st : Store) : Int :=
  (st.mangas.map MangaRow.id).foldl max 0 + 1

/-- Modelled from the spec: surrogate id for a new chapter row. -/
def freshChapterId (st : Store) : Int :=
  (st.chapters.map ChapterRow.id).foldl max 0 + 1

/-- Modelled from the spec: surrogate id for a new page row. -/
def freshPageId (st : Store) : Int :=
  (st.pages.map PageRow.id).foldl max 0 + 1

/-- Modelled from the spec: `Repository::insert_mangas` — insert each
fetched manga, ignoring the conflict when a row with the same natural key
(source, path) already exists; return the surrogate ids (existing or
fresh) in fetch order. -/
def insert_mangas (st : Store) (source : String) :
    List MangaData → Store × List Int
  | [] => (st, [])
  | m :: ms =>
    match st.mangas.find? (fun r => r.source == source && r.path == m.path) with
    | some r =>
      let res := insert_mangas st source ms
      (res.1, r.id :: res.2)
    | none =>
      let row : MangaRow :=
        { id := freshMangaId st, source := source, title := m.title,
          path := m.path, thumbnail := m.thumbnail, author := [],
          status := none, description := none }
      let res := insert_mangas { st with mangas := st.mangas ++ [row] } source ms
      (res.1, row.id :: res.2)

/-- Modelled from the spec: point lookup of a manga row by surrogate id. -/
def get_manga (st : Store) (manga_id : Int) : Option MangaRow :=
  st.mangas.find? (fun r => r.id == manga_id)

/-- Modelled from the spec: `Repository::get_mangas` — look up each id. -/
def get_mangas (st : Store) (ids : List Int) : Option (List MangaRow) :=
  ids.mapM (get_manga st)

/-- Modelled from the spec: `Repository::get_manga_detail` — the canonical
cached record for a manga id (per-user overlay out of the modelled state). -/
def get_manga_detail (st : Store) (manga_id : Int) : Option MangaRow :=
  get_manga st manga_id

/-- Modelled from the spec: refinement of one cache row — shared metadata
is append-only-refined (a field is only filled in when previously absent,
never overwritten with emptier data). -/
def refineRow (r : MangaRow) (d : MangaDetailData) : MangaRow :=
  { r with
    author := if r.author.isEmpty then d.author else r.author,
    status := r.status.orElse (fun _ => d.status),
    description := r.description.orElse (fun _ => d.description) }

/-- Modelled from the spec: `Repository::update_manga_info` — refine the
cache row in place. -/
def update_manga_info (st : Store) (manga_id : Int) (d : MangaDetailData) :
    Store :=
  { st with mangas := st.mangas.map (fun r =>
      if r.id == manga_id then refineRow r d else r) }

/-- Modelled from the spec: `Repository::get_chapters` — the chapter rows
of a manga; errs (`none`) when none are cached, which the orchestrator
treats as a cache miss. -/
def get_chapters_repo (st : Store) (manga_id : Int) : Option (List ChapterRow) :=
  let l := st.chapters.filter (fun c => c.manga_id == manga_id)
  if l.isEmpty then none else some l

/-- Insert fetched chapters one by one, ignoring conflicts on the natural
key (manga_id, number); `src` is the denormalised source name. -/
def insertChaptersGo (manga_id : Int) (src : String) (st : Store) :
    List ChapterData → Store
  | [] => st
  | c :: chs =>
    let st1 :=
      if (st.chapters.find? (fun r => r.manga_id == manga_id && r.number == c.number)).isSome
      then st
      else { st with chapters := st.chapters ++
          [{ id := freshChapterId st, manga_id := manga_id, source := src,
             number := c.number, path := c.path }] }
    insertChaptersGo manga_id src st1 chs

/-- Modelled from the spec: `Repository::insert_chapters` — insert each
fetched chapter, ignoring the conflict when a row with the same natural
key (manga_id, number) exists; `source` is denormalised from the owning
manga row. -/
def insert_chapters (st : Store) (manga_id : Int) (chs : List ChapterData) :
    Store :=
  insertChaptersGo manga_id
    (match get_manga st manga_id with
     | some m => m.source
     | none => "") st chs

/-- Modelled from the spec: point lookup of a chapter row by surrogate id. -/
def get_chapter (st : Store) (chapter_id : Int) : Option ChapterRow :=
  st.chapters.find? (fun r => r.id == chapter_id)

/-- Modelled from the spec: `Repository::delete_pages` — delete every page
row of the chapter. -/
def delete_pages (st : Store) (chapter_id : Int) : Store :=
  { st with pages := st.pages.filter (fun p => p.chapter_id != chapter_id) }

/-- Insert page references one by one starting at rank `k`, ignoring the
conflict when a row with the same natural key (chapter_id, rank) exists. -/
def insertPagesFrom (st : Store) (chapter_id : Int) (k : Nat) :
    List String → Store
  | [] => st
  | u :: us =>
    let rank : Int := k
    let st1 :=
      if (st.pages.find? (fun p => p.chapter_id == chapter_id && p.rank == rank)).isSome
      then st
      else { st with pages := st.pages ++
          [{ id := freshPageId st, chapter_id := chapter_id, rank := rank,
             url := u }] }
    insertPagesFrom st1 chapter_id (k + 1) us

/-- Modelled from the spec: `Repository::insert_pages` — insert the fetched
page references with rank = position, ignoring conflicts on the natural
key (chapter_id, rank). -/
def insert_pages (st : Store) (chapter_id : Int) (urls : List String) : Store :=
  insertPagesFrom st chapter_id 0 urls

/-- Insertion of a page row into a rank-sorted list. -/
def insertByRank (p : PageRow) : List PageRow → List PageRow
  | [] => [p]
  | q :: qs => if p.rank ≤ q.rank then p :: q :: qs else q :: insertByRank p qs

/-- Sort page rows by ascending rank. -/
def sortByRank (l : List PageRow) : List PageRow :=
  l.foldr insertByRank []

/-- The page rows of a chapter in ascending rank order. -/
def pagesOf (st : Store) (chapter_id : Int) : List PageRow :=
  sortByRank (st.pages.filter (fun p => p.chapter_id == chapter_id))

/-- Modelled from the spec: `Repository::get_pages` — the manga id (from
the owning chapter row) and the page references of the chapter in rank
order; errs (`none`) when no chapter row or no page rows exist. -/
def get_pages_repo (st : Store) (chapter_id : Int) :
    Option (Int × List String) := do
  let ch ← get_chapter st chapter_id
  let ps := pagesOf st chapter_id
  if ps.isEmpty then none else some (ch.manga_id, ps.map PageRow.url)

/-- Modelled from the spec: `Repository::get_image_from_page_id` — resolve
a page surrogate id to (source, remote image reference) via the owning
chapter row. -/
def get_image_from_page_id (st : Store) (page_id : Int) :
    Option (String × String) := do
  let p ← st.pages.find? (fun q => q.id == page_id)
  let ch ← get_chapter st p.chapter_id
  pure (ch.source, p.url)

/-! ## Provider modules and the content cache orchestrator
(`Manga` in `src/tanoshi/src/extension/manga.rs`) -/

/-- A loaded provider module: the outcome of each provider call for a given
argument is given as data (`none` models an `Err`/failed call, which the
orchestrator unwraps). -/
structure Extension where
  listMangas : Option (List MangaData)
  mangaInfo : String → Option MangaDetailData
  chapters : String → Option (List ChapterData)
  pages : String → Option (List String)
  page : String → Option (List Nat)

/-- The extension registry lookup `Extensions::get`. -/
abbrev Exts := String → Option Extension

/-- Whether the cached manga detail is complete (manga.rs lines 208–211):
status present, author list nonempty, description present. -/
def mangaComplete (r : MangaRow) : Bool :=
  r.status.isSome && !r.author.isEmpty && r.description.isSome

/-- `Manga::list_mangas` (manga.rs lines 173–199): look up the provider
(`.unwrap()` — panics when absent), fetch the listing (`.unwrap()` — panics
on provider failure), insert with ignore-conflict, then re-read the
canonical rows.  Returns the store after any writes together with the
outcome. -/
def list_mangas (st : Store) (exts : Exts) (source : String) :
    Store × Except Failure (List MangaRow) :=
  match exts source with
  | none => (st, .error (.panicked "called Option::unwrap on a None value"))
  | some ext =>
    match ext.listMangas with
    | none => (st, .error (.panicked "called Result::unwrap on an Err value"))
    | some ms =>
      let (st1, ids) := insert_mangas st source ms
      match get_mangas st1 ids with
      | some rows => (st1, .ok rows)
      | none => (st1, .error (.err "get mangas"))

/-- `Manga::get_manga_info` (manga.rs lines 201–229): read the cached
detail (typed error when the id is unknown); return it as a cache hit when
complete; otherwise query the provider (both the registry lookup and the
provider call are `.unwrap()`ed — panics), refine the cache row in place,
and re-read the canonical record. -/
def get_manga_info (st : Store) (exts : Exts) (manga_id : Int) :
    Store × Except Failure MangaRow :=
  match get_manga_detail st manga_id with
  | none => (st, .error (.err "manga not found"))
  | some row =>
    if mangaComplete row then (st, .ok row)
    else
      match exts row.source with
      | none => (st, .error (.panicked "called Option::unwrap on a None value"))
      | some ext =>
        match ext.mangaInfo row.path with
        | none => (st, .error (.panicked "called Result::unwrap on an Err value"))
        | some d =>
          let st1 := update_manga_info st manga_id d
          match get_manga_detail st1 manga_id with
          | some r2 => (st1, .ok r2)
          | none => (st1, .error (.err "manga not found"))

/-- `Manga::get_chapters` (manga.rs lines 231–268): cache hit unless
`refresh`; on miss, read the manga row (typed error when absent), look up
the provider (`.unwrap()` — panics when absent), fetch chapters (typed
error on provider failure), insert with ignore-conflict, re-read. -/
def get_chapters (st : Store) (exts : Exts) (manga_id : Int) (refresh : Bool) :
    Store × Except Failure (List ChapterRow) :=
  match (if refresh then none else get_chapters_repo st manga_id) with
  | some chs => (st, .ok chs)
  | none =>
    match get_manga st manga_id with
    | none => (st, .error (.err "error get manga"))
    | some manga =>
      match exts manga.source with
      | none => (st, .error (.panicked "called Option::unwrap on a None value"))
      | some ext =>
        match ext.chapters manga.path with
        | none => (st, .error (.err "error get chapters"))
        | some chs =>
          let st1 := insert_chapters st manga_id chs
          match get_chapters_repo st1 manga_id with
          | some out => (st1, .ok out)
          | none => (st1, .error (.err "error get chapters"))

/-- `Manga::get_pages` (manga.rs lines 270–313): on `refresh`, delete the
chapter's page rows first (a delete error is logged and ignored); serve
the cached rows when any remain; otherwise read the chapter row, query the
provider (registry lookup and provider call both `.unwrap()`ed — panics),
insert the fetched references, and re-read; with no cached pages and no
chapter row the call fails with the typed error `pages not found`. -/
def get_pages (st : Store) (exts : Exts) (chapter_id : Int) (refresh : Bool) :
    Store × Except Failure (Int × List String) :=
  let st1 := if refresh then delete_pages st chapter_id else st
  match get_pages_repo st1 chapter_id with
  | some resp => (st1, .ok resp)
  | none =>
    match get_chapter st1 chapter_id with
    | none => (st1, .error (.err "pages not found"))
    | some ch =>
      match exts ch.source with
      | none => (st1, .error (.panicked "called Option::unwrap on a None value"))
      | some ext =>
        match ext.pages ch.path with
        | none => (st1, .error (.panicked "called Result::unwrap on an Err value"))
        | some urls =>
          let st2 := insert_pages st1 chapter_id urls
          match get_pages_repo st2 chapter_id with
          | some resp => (st2, .ok resp)
          | none => (st2, .error (.err "pages not found after insert"))

/-! ## Image proxy (`Manga::proxy_image`) -/

/-- Split a character list at the first occurrence of `"://"`. -/
def splitScheme : List Char → Option (List Char × List Char)
  | [] => none
  | ':' :: '/' :: '/' :: rest => some ([], rest)
  | c :: cs => (splitScheme cs).map (fun p => (c :: p.1, p.2))

/-- Take characters up to (excluding) the first stop character. -/
def takeUntil (stops : List Char) : List Char → List Char
  | [] => []
  | c :: rest => if c ∈ stops then [] else c :: takeUntil stops rest

/-- Modelled from the `url` crate: the path component of an absolute URL —
from the first `/` after the scheme-authority part, cut at the first `?`
or `#`, defaulting to `/`; a reference with no `://` fails to parse and
the raw string is used instead (manga.rs lines 324–327). -/
def urlPath (s : String) : String :=
  match splitScheme s.data with
  | none => s
  | some (_, rest) =>
    let noQuery := takeUntil ['?', '#'] rest
    let p := noQuery.dropWhile (fun c => c ≠ '/')
    String.mk (if p.isEmpty then ['/'] else p)

/-- The extension of a path: the part after the last `.` of the last `/`
segment, `none` when that segment has no `.`. -/
def extensionOf (p : String) : Option String :=
  let seg := ((splitOnChar '/' p).getLastD p)
  match splitOnChar '.' seg with
  | [] => none
  | [_] => none
  | parts => some (parts.getLastD "")

/-- Modelled from the `mime_guess` crate: extension → MIME type for the
image types in play. -/
def mimeOfExt (e : String) : Option String :=
  if e == "png" then some "image/png"
  else if e == "jpg" then some "image/jpeg"
  else if e == "jpeg" then some "image/jpeg"
  else if e == "gif" then some "image/gif"
  else if e == "webp" then some "image/webp"
  else if e == "bmp" then some "image/bmp"
  else none

/-- `mime_guess::from_path(...).first_or_octet_stream()` applied as in
manga.rs lines 324–327: guess from the URL's path component, falling back
to `application/octet-stream` for an unrecognized extension. -/
def guessMime (imageUrl : String) : String :=
  match extensionOf (urlPath imageUrl) with
  | some e =>
    match mimeOfExt e with
    | some m => m
    | none => "application/octet-stream"
  | none => "application/octet-stream"

/-- The HTTP response `proxy_image` builds. -/
structure ProxyResponse where
  contentType : String
  contentLength : Nat
  body : List Nat
deriving DecidableEq, Repr

/-- `Manga::proxy_image` (manga.rs lines 315–335): resolve the page id to
(source, image reference) via the cache — a typed rejection (`NotFound`)
when absent; look up the provider and fetch the bytes (both `.unwrap()`ed —
panics); answer with the bytes and the guessed content type. -/
def proxy_image (st : Store) (exts : Exts) (page_id : Int) :
    Except Failure ProxyResponse :=
  match get_image_from_page_id st page_id with
  | none => .error (.err "not found")
  | some (source, imageUrl) =>
    match exts source with
    | none => .error (.panicked "called Option::unwrap on a None value")
    | some ext =>
      match ext.page imageUrl with
      | none => .error (.panicked "called Result::unwrap on an Err value")
      | some bytes =>
        .ok { contentType := guessMime imageUrl,
              contentLength := bytes.length, body := bytes }

/-! ## Composite read (`Manga::read`) -/

/-- The aggregate view `read` assembles. -/
structure ReadResponse where
  manga : MangaRow
  chapters : List ChapterRow
  chapter : ChapterRow
  pages : List String
deriving DecidableEq, Repr

/-- `Manga::read` (manga.rs lines 350–376): pages, then chapters, then
manga detail, each sub-result `.unwrap()`ed — any sub-failure panics the
call (no typed error reaches the caller); finally the requested chapter is
looked up among the chapters result and `.unwrap()`ed — a panic when
absent. -/
def read_view (st : Store) (exts : Exts) (chapter_id : Int) (refresh : Bool) :
    Store × Except Failure ReadResponse :=
  let (st1, pres) := get_pages st exts chapter_id refresh
  match pres with
  | .error _ => (st1, .error (.panicked "called Result::unwrap on an Err value"))
  | .ok (manga_id, pages) =>
    let (st2, cres) := get_chapters st1 exts manga_id refresh
    match cres with
    | .error _ => (st2, .error (.panicked "called Result::unwrap on an Err value"))
    | .ok chapters =>
      let (st3, mres) := get_manga_info st2 exts manga_id
      match mres with
      | .error _ => (st3, .error (.panicked "called Result::unwrap on an Err value"))
      | .ok manga =>
        match chapters.find? (fun c => c.id == chapter_id) with
        | none => (st3, .error (.panicked "called Option::unwrap on a None value"))
        | some chapter =>
          (st3, .ok { manga := manga, chapters := chapters,
                      chapter := chapter, pages := pages })

/-! ## Source installation (`Manga::install_source`) -/

/-- A handle registered by `Extensions::load`; the name is the one the
loaded module itself declares. -/
structure LoadedExt where
  name : String
  version : String
deriving DecidableEq, Repr

/-- The registry of loaded provider modules, as an association list so that
the "at most one live handle per name" property is expressible. -/
abbrev Registry := List (String × LoadedExt)

/-- How many handles the registry holds for a name. -/
def countName (r : Registry) (n : String) : Nat :=
  (r.filter (fun p => p.1 == n)).length

/-- `Extensions::remove`: drop the handle(s) registered under a name. -/
def removeName (r : Registry) (n : String) : Registry :=
  r.filter (fun p => p.1 != n)

/-- Whether a handle is registered under a name (`Extensions::get(. ).is_some()`). -/
def hasName (r : Registry) (n : String) : Bool :=
  (r.find? (fun p => p.1 == n)).isSome

/-- The observable steps of `install_source`, in execution order.  `load`
carries the exact bytes the loader is pointed at. -/
inductive Event where
  | unload : String → Event
  | deleteFile : String → Event
  | download : String → Event
  | writeFile : String → Event
  | load : String → List Nat → Event
deriving DecidableEq, Repr

/-- The local filesystem: path → file bytes. -/
structure Fs where
  files : List (String × List Nat)
deriving DecidableEq, Repr

/-- Delete a file. -/
def Fs.del (fs : Fs) (p : String) : Fs :=
  ⟨fs.files.filter (fun q => q.1 != p)⟩

/-- Write a file (full replace). -/
def Fs.put (fs : Fs) (p : String) (bytes : List Nat) : Fs :=
  ⟨(p, bytes) :: fs.files.filter (fun q => q.1 != p)⟩

/-- Read a file. -/
def Fs.read (fs : Fs) (p : String) : Option (List Nat) :=
  (fs.files.find? (fun q => q.1 == p)).map Prod.snd

/-- The target operating system, deciding the binary suffix
(`cfg!(target_os = ...)` in manga.rs lines 105–115). -/
inductive Platform where
  | windows
  | macos
  | linux
  | other
deriving DecidableEq, Repr

/-- The platform-specific binary suffix; `none` yields the typed
`os not supported` error. -/
def binSuffix : Platform → Option String
  | .windows => some "dll"
  | .macos => some "dylib"
  | .linux => some "so"
  | .other => none

/-- The outcome of `install_source`: final registry and filesystem, the
trace of observable events each paired with the registry state right after
it, and the call's result. -/
structure InstallResult where
  registry : Registry
  fs : Fs
  trace : List (Event × Registry)
  outcome : Except Failure Unit

/-- `Manga::install_source` (manga.rs lines 90–171) with its external
effects made explicit: `catalog` is the fetched index, `download` the
result of fetching the binary bytes (`none` = transport/read failure),
`writeOk`/`deleteOk` whether the filesystem write/delete succeed, and
`loadFn` maps the bytes the loader reads from disk to the handle the
module declares (`none` = load error).  Steps: find the catalog entry
(typed `extension not found`), pick the suffix (typed `os not supported`),
unload any existing handle and best-effort delete its binary (a failed
delete is ignored), download (typed error on failure), write the file
(typed error on failure), and finally load — only when no handle is
registered for the name. -/
def install_source (catalog : List SourceIndex) (plat : Platform)
    (registry : Registry) (fs : Fs) (source_name plugin_path : String)
    (download : Option (List Nat)) (writeOk deleteOk : Bool)
    (loadFn : List Nat → Option LoadedExt) : InstallResult :=
  match catalog.find? (fun s => s.name == source_name) with
  | none => ⟨registry, fs, [], .error (.err "extension not found")⟩
  | some _source =>
    match binSuffix plat with
    | none => ⟨registry, fs, [], .error (.err "os not supported")⟩
    | some suffix =>
      let path := plugin_path ++ "/" ++ source_name ++ "." ++ suffix
      let wasLoaded := hasName registry source_name
      let reg1 := if wasLoaded then removeName registry source_name else registry
      let fs1 := if wasLoaded ∧ deleteOk then fs.del path else fs
      let tr1 := if wasLoaded then
          [(Event.unload source_name, reg1), (Event.deleteFile path, reg1)]
        else []
      match download with
      | none =>
        ⟨reg1, fs1, tr1 ++ [(Event.download source_name, reg1)],
          .error (.err "download failed")⟩
      | some bytes =>
        let tr2 := tr1 ++ [(Event.download source_name, reg1)]
        if writeOk then
          let fs2 := fs1.put path bytes
          let tr3 := tr2 ++ [(Event.writeFile path, reg1)]
          if hasName reg1 source_name then ⟨reg1, fs2, tr3, .ok ()⟩
          else
            match fs2.read path with
            | none => ⟨reg1, fs2, tr3, .error (.err "load failed")⟩
            | some b =>
              match loadFn b with
              | none =>
                ⟨reg1, fs2, tr3 ++ [(Event.load path b, reg1)],
                  .error (.err "load failed")⟩
              | some h =>
                let reg2 := reg1 ++ [(h.name, h)]
                ⟨reg2, fs2, tr3 ++ [(Event.load path b, reg2)], .ok ()⟩
        else ⟨reg1, fs1, tr2, .error (.err "write failed")⟩

/-! ## Theorems -/

/-- The version ladder on two parsed triples, starting from a clear update
flag, computes exactly the strict lexicographic comparison. -/
theorem updateLadder_triple (a b c d e f : Int) :
    updateLadder [a, b, c] [d, e, f] false = some (lexLt a b c d e f) := by
  simp only [updateLadder, idx, List.get?, Option.bind_eq_bind, Option.some_bind, lexLt]
  split_ifs <;> simp_all

/-- C1: for every catalog entry whose name matches a loaded provider (and
whose `update` flag is clear as fetched), `list_sources` computes the
update flag as the lexicographic triple comparison installed < available
(first differing component decides), and then forces it to `false`
whenever the entry's core-ABI or toolchain version differs from the
host's, regardless of the version ordering. -/
theorem c1_update_availability
    (exts : String → Option ExtInfo) (hostCore hostRustc : String)
    (s : SourceIndex) (ext : ExtInfo) (a b c d e f : Int)
    (hext : exts s.name = some ext)
    (hiv : parseVersion ext.version = some [a, b, c])
    (hav : parseVersion s.version = some [d, e, f])
    (hu : s.update = false) :
    annotateEntry exts hostCore hostRustc s =
      some { s with installed := true, installed_version := ext.version,
                    update := lexLt a b c d e f &&
                      (s.core_version == hostCore && s.rustc_version == hostRustc) } ∧
    list_sources exts hostCore hostRustc [s] =
      some [{ s with installed := true, installed_version := ext.version,
                     update := lexLt a b c d e f &&
                       (s.core_version == hostCore && s.rustc_version == hostRustc) }] := by
  have hmain : annotateEntry exts hostCore hostRustc s =
      some { s with installed := true, installed_version := ext.version,
                    update := lexLt a b c d e f &&
                      (s.core_version == hostCore && s.rustc_version == hostRustc) } := by
    unfold annotateEntry
    rw [hext]
    simp only [hiv, hav, Option.bind_eq_bind, Option.some_bind]
    rw [hu, updateLadder_triple]
    simp only [Option.some_bind]
    congr 1
    by_cases hc : s.core_version = hostCore <;> by_cases hr : s.rustc_version = hostRustc <;>
      simp [hc, hr]
  exact ⟨hmain, by simp [list_sources, List.mapM, List.mapM.loop, hmain]⟩

/-- The registry and host versions used by the C1/C10 witnesses. -/
def wExts : String → Option ExtInfo :=
  fun n => if n == "mangasee" then some ⟨"1.2.3"⟩ else none

/-- The catalog entry used by the C1 witness: version `1.2.4` against
installed `1.2.3`, matching ABI. -/
def wEntry : SourceIndex :=
  { name := "mangasee", path := "mangasee/mangasee.so", version := "1.2.4",
    core_version := "1.0.0", rustc_version := "1.44.0",
    installed := false, installed_version := "", update := false }

/-- Witness for C1: installed `(1,2,3)` against catalog `(1,2,4)` with
matching ABI yields `update = true`. -/
theorem c1_update_availability_witness :
    wExts wEntry.name = some ⟨"1.2.3"⟩ ∧
    parseVersion "1.2.3" = some [1, 2, 3] ∧
    parseVersion wEntry.version = some [1, 2, 4] ∧
    wEntry.update = false ∧
    (annotateEntry wExts "1.0.0" "1.44.0" wEntry =
      some { wEntry with installed := true, installed_version := "1.2.3",
                         update := lexLt 1 2 3 1 2 4 &&
                           (wEntry.core_version == "1.0.0" &&
                            wEntry.rustc_version == "1.44.0") } ∧
     list_sources wExts "1.0.0" "1.44.0" [wEntry] =
      some [{ wEntry with installed := true, installed_version := "1.2.3",
                          update := lexLt 1 2 3 1 2 4 &&
                            (wEntry.core_version == "1.0.0" &&
                             wEntry.rustc_version == "1.44.0") }]) :=
  ⟨by decide, by decide, by decide, by decide,
    c1_update_availability wExts "1.0.0" "1.44.0" wEntry ⟨"1.2.3"⟩ 1 2 3 1 2 4
      (by decide) (by decide) (by decide) (by decide)⟩

/-- C9: there is an input on which `list_sources` panics during version
comparison — a loaded extension for `mangasee` reporting version
`1.0.0-beta`, whose third dot-separated component is not a decimal
integer, makes the annotation of a matching catalog entry unwrap a failed
parse (modelled by `none`). -/
theorem c9_version_parse_panics :
    list_sources (fun n => if n == "mangasee" then some ⟨"1.0.0-beta"⟩ else none)
      "1.0.0" "1.44.0"
      [{ name := "mangasee", path := "mangasee/mangasee.so", version := "1.0.0",
         core_version := "1.0.0", rustc_version := "1.44.0",
         installed := false, installed_version := "", update := false }] = none := by
  decide

/-- C10: a catalog entry whose name matches no loaded provider is returned
by `list_sources` exactly as fetched — `installed`, `installed_version`
and `update` untouched. -/
theorem c10_unmatched_entry_unchanged
    (exts : String → Option ExtInfo) (hostCore hostRustc : String)
    (s : SourceIndex) (h : exts s.name = none) :
    annotateEntry exts hostCore hostRustc s = some s ∧
    list_sources exts hostCore hostRustc [s] = some [s] := by
  have hmain : annotateEntry exts hostCore hostRustc s = some s := by
    unfold annotateEntry
    rw [h]
  exact ⟨hmain, by simp [list_sources, List.mapM, List.mapM.loop, hmain]⟩

/-- The catalog entry used by the C10 witness, carrying nontrivial
annotation fields to show they survive unmodified. -/
def wEntryTen : SourceIndex :=
  { name := "mangadex", path := "mangadex/mangadex.so", version := "2.0.0",
    core_version := "9.9.9", rustc_version := "1.44.0",
    installed := true, installed_version := "0.1.0", update := true }

/-- Witness for C10: with no provider loaded under `mangadex`, the entry
comes back exactly as fetched. -/
theorem c10_unmatched_entry_unchanged_witness :
    wExts wEntryTen.name = none ∧
    (annotateEntry wExts "1.0.0" "1.44.0" wEntryTen = some wEntryTen ∧
     list_sources wExts "1.0.0" "1.44.0" [wEntryTen] = some [wEntryTen]) :=
  ⟨by decide, c10_unmatched_entry_unchanged wExts "1.0.0" "1.44.0" wEntryTen (by decide)⟩

/-- Refinement does not change a row's id. -/
theorem refineRow_id (r : MangaRow) (d : MangaDetailData) : (refineRow r d).id = r.id := rfl

/-- Re-reading the canonical record after an in-place refinement yields the
refined row. -/
theorem get_manga_detail_update (st : Store) (manga_id : Int) (d : MangaDetailData) :
    get_manga_detail (update_manga_info st manga_id d) manga_id =
      (get_manga_detail st manga_id).map (fun r => refineRow r d) := by
  unfold get_manga_detail get_manga update_manga_info
  rw [List.find?_map]
  have hp : ((fun r : MangaRow => r.id == manga_id) ∘
      (fun r => if r.id == manga_id then refineRow r d else r)) =
      (fun r : MangaRow => r.id == manga_id) := by
    funext r
    by_cases h : r.id == manga_id <;> simp [Function.comp, h, refineRow_id]
  rw [hp]
  cases hf : st.mangas.find? (fun r => r.id == manga_id) with
  | none => rfl
  | some r =>
    have hr : (r.id == manga_id) = true :=
      List.find?_some (p := fun r : MangaRow => r.id == manga_id) hf
    simp [hr]
    exact fun hx => absurd (eq_of_beq hr) hx

/-- C4: without a forced refresh, the cached manga record is a pure cache
hit (returned unchanged, for every registry — so no provider is consulted)
if and only if status, author list and description are all present;
otherwise the provider is queried, the cache row refined in place, and the
canonical record re-read and returned. -/
theorem c4_detail_cache_policy (st : Store) (manga_id : Int) (cached : MangaRow)
    (h : get_manga_detail st manga_id = some cached) :
    (mangaComplete cached = true ↔
      ∀ exts : Exts, get_manga_info st exts manga_id = (st, .ok cached)) ∧
    (mangaComplete cached = false →
      ∀ (exts : Exts) (ext : Extension) (d : MangaDetailData),
        exts cached.source = some ext →
        ext.mangaInfo cached.path = some d →
        get_manga_info st exts manga_id =
          (update_manga_info st manga_id d, .ok (refineRow cached d))) := by
  constructor
  · constructor
    · intro hc exts
      simp only [get_manga_info, h, hc, if_true]
    · intro hall
      by_contra hnc
      rw [Bool.not_eq_true] at hnc
      have hone := hall (fun _ => none)
      simp only [get_manga_info, h, hnc, Bool.false_eq_true, if_false] at hone
      simp at hone
  · intro hnc exts ext d hext hinfo
    simp only [get_manga_info, h, hnc, Bool.false_eq_true, if_false, hext, hinfo,
      get_manga_detail_update]
    simp

/-- The complete cached row used by the C4 witness. -/
def wRowFour : MangaRow :=
  { id := 1, source := "mangasee", title := "One Piece", path := "/m/one-piece",
    thumbnail := "/t.png", author := ["Oda"], status := some "Ongoing",
    description := some "Pirates." }

/-- The store used by the C4 witness. -/
def wStoreFour : Store := { mangas := [wRowFour], chapters := [], pages := [] }

/-- Witness for C4: a complete cached row is served as a pure cache hit for
every registry. -/
theorem c4_detail_cache_policy_witness :
    get_manga_detail wStoreFour 1 = some wRowFour ∧
    ((mangaComplete wRowFour = true ↔
      ∀ exts : Exts, get_manga_info wStoreFour exts 1 = (wStoreFour, .ok wRowFour)) ∧
     (mangaComplete wRowFour = false →
      ∀ (exts : Exts) (ext : Extension) (d : MangaDetailData),
        exts wRowFour.source = some ext →
        ext.mangaInfo wRowFour.path = some d →
        get_manga_info wStoreFour exts 1 =
          (update_manga_info wStoreFour 1 d, .ok (refineRow wRowFour d)))) :=
  ⟨by decide, c4_detail_cache_policy wStoreFour 1 wRowFour (by decide)⟩

/-- Whether an outcome is a typed error reaching the caller (as opposed to
success or a panic). -/
def isTypedError {α : Type} (r : Except Failure α) : Bool :=
  match r with
  | .error f => f.isTyped
  | .ok _ => false

/-- The empty store. -/
def emptyStore : Store := { mangas := [], chapters := [], pages := [] }

/-- A registry with no provider loaded. -/
def noExts : Exts := fun _ => none

/-- Counterexample to C7: with no provider loaded for `mangasee`,
`list_mangas` does not fail with a typed `NotInstalled` error — it panics
on the `unwrap` of the absent handle. -/
theorem c7_counterexample :
    list_mangas emptyStore noExts "mangasee" =
      (emptyStore, .error (.panicked "called Option::unwrap on a None value")) ∧
    isTypedError (list_mangas emptyStore noExts "mangasee").2 = false :=
  ⟨rfl, rfl⟩

/-- C7 (amended): a content request naming a source with no loaded provider
handle panics on the `unwrap` of the absent handle — the task dies with no
typed `NotInstalled` error reaching the caller: `list_mangas` panics
immediately, and `get_manga_info` panics as soon as it needs the provider
(cached detail incomplete). -/
theorem c7_missing_provider_panics (st : Store) (exts : Exts) (source : String)
    (hsrc : exts source = none) :
    list_mangas st exts source =
      (st, .error (.panicked "called Option::unwrap on a None value")) ∧
    (∀ (manga_id : Int) (cached : MangaRow),
      get_manga_detail st manga_id = some cached →
      mangaComplete cached = false →
      cached.source = source →
      get_manga_info st exts manga_id =
        (st, .error (.panicked "called Option::unwrap on a None value"))) := by
  constructor
  · unfold list_mangas
    rw [hsrc]
  · intro manga_id cached h hnc hs
    simp only [get_manga_info, h, hnc, Bool.false_eq_true, if_false, hs, hsrc]

/-- The incomplete cached row used by the C7 witness. -/
def wRowSeven : MangaRow :=
  { id := 1, source := "mangasee", title := "One Piece", path := "/m/one-piece",
    thumbnail := "/t.png", author := [], status := none, description := none }

/-- The store used by the C7 witness. -/
def wStoreSeven : Store := { mangas := [wRowSeven], chapters := [], pages := [] }

/-- Witness for C7 (amended): both operations panic against the empty
registry. -/
theorem c7_missing_provider_panics_witness :
    noExts "mangasee" = none ∧
    (list_mangas wStoreSeven noExts "mangasee" =
      (wStoreSeven, .error (.panicked "called Option::unwrap on a None value")) ∧
     (∀ (manga_id : Int) (cached : MangaRow),
       get_manga_detail wStoreSeven manga_id = some cached →
       mangaComplete cached = false →
       cached.source = "mangasee" →
       get_manga_info wStoreSeven noExts manga_id =
         (wStoreSeven, .error (.panicked "called Option::unwrap on a None value")))) :=
  ⟨rfl, c7_missing_provider_panics wStoreSeven noExts "mangasee" rfl⟩

/-- C8: `proxy_image` fails with the typed rejection when no cached page
resolves the id; otherwise it returns the provider's raw bytes with a
content type inferred from the image reference's extension, and the
inference falls back to `application/octet-stream` whenever the extension
is unrecognized. -/
theorem c8_proxy_image_behavior (st : Store) (exts : Exts) (page_id : Int) :
    (get_image_from_page_id st page_id = none →
      proxy_image st exts page_id = .error (.err "not found")) ∧
    (∀ (source imageUrl : String) (ext : Extension) (bytes : List Nat),
      get_image_from_page_id st page_id = some (source, imageUrl) →
      exts source = some ext →
      ext.page imageUrl = some bytes →
      proxy_image st exts page_id =
        .ok { contentType := guessMime imageUrl,
              contentLength := bytes.length, body := bytes }) ∧
    (∀ imageUrl : String,
      mimeOfExt ((extensionOf (urlPath imageUrl)).getD "") = none →
      guessMime imageUrl = "application/octet-stream") := by
  refine ⟨?_, ?_, ?_⟩
  · intro h
    unfold proxy_image
    rw [h]
  · intro source imageUrl ext bytes h hext hpage
    simp only [proxy_image, h, hext, hpage]
  · intro imageUrl h
    unfold guessMime
    cases he : extensionOf (urlPath imageUrl) with
    | none => rfl
    | some e =>
      rw [he] at h
      simp only [Option.getD] at h
      simp only [he, h]

/-- The store used by the C8 witness: one page row resolvable to a `.png`
reference and one to an extensionless reference. -/
def wStoreEight : Store :=
  { mangas := [],
    chapters := [{ id := 7, manga_id := 1, source := "mangasee",
                   number := "3", path := "/c/3" }],
    pages := [{ id := 41, chapter_id := 7, rank := 0,
                url := "https://cdn.img/a/b.png?tok=1" }] }

/-- The registry used by the C8 witness: the provider returns three bytes
for any reference. -/
def wExtsEight : Exts :=
  fun n => if n == "mangasee" then
    some { listMangas := none, mangaInfo := fun _ => none,
           chapters := fun _ => none, pages := fun _ => none,
           page := fun _ => some [9, 9, 9] }
  else none

/-- Witness for C8: the miss case on the empty store, the hit case with an
inferred `image/png` content type, and the octet-stream fallback. -/
theorem c8_proxy_image_behavior_witness :
    (get_image_from_page_id emptyStore 41 = none ∧
      proxy_image emptyStore wExtsEight 41 = .error (.err "not found")) ∧
    (get_image_from_page_id wStoreEight 41 =
        some ("mangasee", "https://cdn.img/a/b.png?tok=1") ∧
      proxy_image wStoreEight wExtsEight 41 =
        .ok { contentType := guessMime "https://cdn.img/a/b.png?tok=1",
              contentLength := 3, body := [9, 9, 9] } ∧
      guessMime "https://cdn.img/a/b.png?tok=1" = "image/png") ∧
    (mimeOfExt ((extensionOf (urlPath "https://cdn.img/raw/image")).getD "") = none ∧
      guessMime "https://cdn.img/raw/image" = "application/octet-stream") :=
  ⟨⟨by decide, (c8_proxy_image_behavior emptyStore wExtsEight 41).1 (by decide)⟩,
   ⟨by decide,
    (c8_proxy_image_behavior wStoreEight wExtsEight 41).2.1
      "mangasee" "https://cdn.img/a/b.png?tok=1"
      { listMangas := none, mangaInfo := fun _ => none,
        chapters := fun _ => none, pages := fun _ => none,
        page := fun _ => some [9, 9, 9] } [9, 9, 9]
      (by decide) rfl rfl,
    by decide⟩,
   ⟨by decide,
    (c8_proxy_image_behavior wStoreEight wExtsEight 41).2.2
      "https://cdn.img/raw/image" (by decide)⟩⟩

/-- The page references `us` ranked consecutively from `k`: the shape
`insert_pages` persists. -/
def rankedFrom (k : Nat) : List String → List (Int × String)
  | [] => []
  | u :: us => ((k : Int), u) :: rankedFrom (k + 1) us

/-- Dropping the ranks recovers the provider output. -/
theorem rankedFrom_snd (k : Nat) (us : List String) :
    (rankedFrom k us).map Prod.snd = us := by
  induction us generalizing k with
  | nil => rfl
  | cons u us ih => simp [rankedFrom, ih]

/-- Every rank assigned from `k` onwards is at least `k`. -/
theorem rankedFrom_fst_ge (k : Nat) (us : List String) :
    ∀ y ∈ rankedFrom k us, (k : Int) ≤ y.1 := by
  induction us generalizing k with
  | nil => intro y hy; simp [rankedFrom] at hy
  | cons u us ih =>
    intro y hy
    simp only [rankedFrom, List.mem_cons] at hy
    rcases hy with h | h
    · simp [h]
    · have := ih (k + 1) y h
      push_cast at this ⊢
      omega

/-- Consecutively assigned ranks are sorted. -/
theorem rankedFrom_pairwise (k : Nat) (us : List String) :
    (rankedFrom k us).Pairwise (fun a b => a.1 ≤ b.1) := by
  induction us generalizing k with
  | nil => exact List.Pairwise.nil
  | cons u us ih =>
    refine List.Pairwise.cons ?_ (ih (k + 1))
    intro y hy
    have := rankedFrom_fst_ge (k + 1) us y hy
    push_cast at this ⊢
    omega

/-- `rankedFrom` preserves length. -/
theorem rankedFrom_length (k : Nat) (us : List String) :
    (rankedFrom k us).length = us.length := by
  induction us generalizing k with
  | nil => rfl
  | cons u us ih => simp [rankedFrom, ih]

/-- Inserting pages never touches the chapter table. -/
theorem insertPagesFrom_chapters (cid : Int) (us : List String) :
    ∀ (st : Store) (k : Nat), (insertPagesFrom st cid k us).chapters = st.chapters := by
  induction us with
  | nil => intro st k; rfl
  | cons u us ih =>
    intro st k
    unfold insertPagesFrom
    dsimp only
    split <;> exact ih _ _

/-- When every existing page row of the chapter has rank below `k`,
inserting from rank `k` appends exactly the ranked provider output to the
chapter's rows. -/
theorem insertPagesFrom_spec (cid : Int) (us : List String) :
    ∀ (st : Store) (k : Nat),
      (∀ p ∈ st.pages, p.chapter_id = cid → p.rank < (k : Int)) →
      ((insertPagesFrom st cid k us).pages.filter (fun p => p.chapter_id == cid)).map
          (fun p => (p.rank, p.url)) =
        (st.pages.filter (fun p => p.chapter_id == cid)).map (fun p => (p.rank, p.url))
          ++ rankedFrom k us := by
  induction us with
  | nil => intro st k h; simp [insertPagesFrom, rankedFrom]
  | cons u us ih =>
    intro st k h
    unfold insertPagesFrom
    dsimp only
    have hfind : st.pages.find? (fun p => p.chapter_id == cid && p.rank == ((k : Nat) : Int)) = none := by
      rw [List.find?_eq_none]
      intro p hp
      simp only [Bool.and_eq_true, beq_iff_eq, not_and]
      intro hc hr
      exact absurd hr (by have := h p hp hc; omega)
    rw [hfind]
    simp only [Option.isSome_none, Bool.false_eq_true, if_false]
    set row : PageRow := { id := freshPageId st, chapter_id := cid, rank := (k : Int), url := u } with hrow
    have hnext : ∀ p ∈ ({ st with pages := st.pages ++ [row] } : Store).pages,
        p.chapter_id = cid → p.rank < ((k + 1 : Nat) : Int) := by
      intro p hp hc
      simp only [List.mem_append, List.mem_singleton] at hp
      rcases hp with h1 | h1
      · have := h p h1 hc
        push_cast at this ⊢
        omega
      · subst h1
        have hrr : row.rank = (k : Int) := by rw [hrow]
        rw [hrr]
        push_cast
        omega
    have := ih ({ st with pages := st.pages ++ [row] }) (k + 1) hnext
    rw [this]
    have hfilter : (st.pages ++ [row]).filter (fun p => p.chapter_id == cid) =
        st.pages.filter (fun p => p.chapter_id == cid) ++ [row] := by
      rw [List.filter_append]
      simp [hrow]
    simp only [hfilter, List.map_append, List.map_cons, List.map_nil, rankedFrom]
    simp [hrow]

/-- Insertion sort by rank is the identity on rank-sorted lists. -/
theorem sortByRank_eq_self (l : List PageRow)
    (h : l.Pairwise (fun p q => p.rank ≤ q.rank)) : sortByRank l = l := by
  induction l with
  | nil => rfl
  | cons p l ih =>
    have hh := List.Pairwise.of_cons h
    have hhead : ∀ y ∈ l, p.rank ≤ y.rank := fun y hy => (List.pairwise_cons.mp h).1 y hy
    unfold sortByRank at ih ⊢
    simp only [List.foldr_cons]
    rw [ih hh]
    cases l with
    | nil => rfl
    | cons q qs =>
      unfold insertByRank
      rw [if_pos (hhead q (by simp))]

/-- After `delete_pages`, no page row of the chapter remains. -/
theorem delete_pages_filter (st : Store) (cid : Int) :
    (delete_pages st cid).pages.filter (fun p => p.chapter_id == cid) = [] := by
  rw [List.filter_eq_nil_iff]
  intro p hp
  unfold delete_pages at hp
  simp only [List.mem_filter, bne_iff_ne, ne_eq] at hp
  simp [hp.2]

/-- Page insertion leaves chapter lookups unchanged. -/
theorem get_chapter_insertPagesFrom (st : Store) (cid x : Int) (k : Nat) (us : List String) :
    get_chapter (insertPagesFrom st cid k us) x = get_chapter st x := by
  unfold get_chapter
  rw [insertPagesFrom_chapters]

/-- C2: a forced page refresh for a chapter whose row exists first deletes
every cached page row of that chapter and then persists exactly the
provider's current output: afterwards the chapter's rows are the provider
references ranked `0, 1, …` in order — no leftover stale ranks — and the
call returns them. -/
theorem c2_forced_page_refresh (st : Store) (exts : Exts) (cid : Int)
    (ch : ChapterRow) (ext : Extension) (urls : List String)
    (hch : get_chapter st cid = some ch)
    (hext : exts ch.source = some ext)
    (hurls : ext.pages ch.path = some urls)
    (hne : urls ≠ []) :
    ((get_pages st exts cid true).1.pages.filter (fun p => p.chapter_id == cid)).map
        (fun p => (p.rank, p.url)) = rankedFrom 0 urls ∧
    (pagesOf (get_pages st exts cid true).1 cid).map PageRow.url = urls ∧
    (get_pages st exts cid true).2 = .ok (ch.manga_id, urls) := by
  have hch1 : get_chapter (delete_pages st cid) cid = some ch := hch
  have hrepo1 : get_pages_repo (delete_pages st cid) cid = none := by
    unfold get_pages_repo
    rw [hch1]
    unfold pagesOf
    rw [delete_pages_filter]
    simp [sortByRank]
  have hempty1 : ∀ p ∈ (delete_pages st cid).pages, p.chapter_id = cid → p.rank < ((0 : Nat) : Int) := by
    intro p hp hc
    have : p ∈ (delete_pages st cid).pages.filter (fun p => p.chapter_id == cid) := by
      rw [List.mem_filter]
      exact ⟨hp, by simp [hc]⟩
    rw [delete_pages_filter] at this
    simp at this
  have hmap : ((insert_pages (delete_pages st cid) cid urls).pages.filter
      (fun p => p.chapter_id == cid)).map (fun p => (p.rank, p.url)) = rankedFrom 0 urls := by
    unfold insert_pages
    rw [insertPagesFrom_spec cid urls (delete_pages st cid) 0 hempty1, delete_pages_filter]
    simp
  have hpw : ((insert_pages (delete_pages st cid) cid urls).pages.filter
      (fun p => p.chapter_id == cid)).Pairwise (fun p q => p.rank ≤ q.rank) := by
    have h1 := rankedFrom_pairwise 0 urls
    rw [← hmap, List.pairwise_map] at h1
    exact h1
  have hsorted : pagesOf (insert_pages (delete_pages st cid) cid urls) cid =
      (insert_pages (delete_pages st cid) cid urls).pages.filter
        (fun p => p.chapter_id == cid) := by
    unfold pagesOf
    exact sortByRank_eq_self _ hpw
  have hlen : ((insert_pages (delete_pages st cid) cid urls).pages.filter
      (fun p => p.chapter_id == cid)).length = urls.length := by
    have h1 := congrArg List.length hmap
    simp only [List.length_map] at h1
    rw [h1, rankedFrom_length]
  have hurlmap : (pagesOf (insert_pages (delete_pages st cid) cid urls) cid).map
      PageRow.url = urls := by
    rw [hsorted]
    have h1 : ((insert_pages (delete_pages st cid) cid urls).pages.filter
        (fun p => p.chapter_id == cid)).map PageRow.url =
        (((insert_pages (delete_pages st cid) cid urls).pages.filter
          (fun p => p.chapter_id == cid)).map (fun p => (p.rank, p.url))).map Prod.snd := by
      rw [List.map_map]
      rfl
    rw [h1, hmap, rankedFrom_snd]
  have hch2 : get_chapter (insert_pages (delete_pages st cid) cid urls) cid = some ch := by
    unfold insert_pages
    rw [get_chapter_insertPagesFrom]
    exact hch1
  have hrepo2 : get_pages_repo (insert_pages (delete_pages st cid) cid urls) cid =
      some (ch.manga_id, urls) := by
    unfold get_pages_repo
    rw [hch2]
    simp only [Option.bind_eq_bind, Option.some_bind]
    have hnonempty : (pagesOf (insert_pages (delete_pages st cid) cid urls) cid).isEmpty = false := by
      rw [hsorted, List.isEmpty_eq_false_iff_exists_mem]
      have : urls.length > 0 := List.length_pos.mpr hne
      rw [← hlen] at this
      exact List.exists_mem_of_length_pos this
    rw [hnonempty]
    simp only [Bool.false_eq_true, if_false]
    rw [hurlmap]
  have hgp : get_pages st exts cid true =
      (insert_pages (delete_pages st cid) cid urls, .ok (ch.manga_id, urls)) := by
    simp only [get_pages, if_true, hrepo1, hch1, hext, hurls, hrepo2]
  rw [hgp]
  exact ⟨hmap, hurlmap, rfl⟩

/-- The chapter row used by the C2 witness. -/
def wChapterTwo : ChapterRow :=
  { id := 7, manga_id := 1, source := "mangasee", number := "3", path := "/c/3" }

/-- The store used by the C2 witness: three stale cached pages. -/
def wStoreTwo : Store :=
  { mangas := [], chapters := [wChapterTwo],
    pages := [{ id := 1, chapter_id := 7, rank := 0, url := "stale0" },
              { id := 2, chapter_id := 7, rank := 1, url := "stale1" },
              { id := 3, chapter_id := 7, rank := 2, url := "stale2" }] }

/-- The provider used by the C2 witness: it now reports two pages. -/
def wExtTwo : Extension :=
  { listMangas := none, mangaInfo := fun _ => none, chapters := fun _ => none,
    pages := fun _ => some ["fresh0", "fresh1"], page := fun _ => none }

/-- The registry used by the C2 witness. -/
def wExtsTwo : Exts := fun n => if n == "mangasee" then some wExtTwo else none

/-- Witness for C2: three stale cached pages are fully replaced by the
provider's two current pages. -/
theorem c2_forced_page_refresh_witness :
    get_chapter wStoreTwo 7 = some wChapterTwo ∧
    wExtsTwo wChapterTwo.source = some wExtTwo ∧
    wExtTwo.pages wChapterTwo.path = some ["fresh0", "fresh1"] ∧
    ["fresh0", "fresh1"] ≠ ([] : List String) ∧
    (((get_pages wStoreTwo wExtsTwo 7 true).1.pages.filter
        (fun p => p.chapter_id == 7)).map (fun p => (p.rank, p.url)) =
          rankedFrom 0 ["fresh0", "fresh1"] ∧
     (pagesOf (get_pages wStoreTwo wExtsTwo 7 true).1 7).map PageRow.url =
        ["fresh0", "fresh1"] ∧
     (get_pages wStoreTwo wExtsTwo 7 true).2 =
        .ok (wChapterTwo.manga_id, ["fresh0", "fresh1"])) :=
  ⟨by decide, rfl, rfl, by decide,
    c2_forced_page_refresh wStoreTwo wExtsTwo 7 wChapterTwo wExtTwo
      ["fresh0", "fresh1"] (by decide) rfl rfl (by decide)⟩

/-- No two manga rows share the natural key (source, path). -/
def mangaKeysUnique (st : Store) : Prop :=
  st.mangas.Pairwise (fun r s => ¬(r.source = s.source ∧ r.path = s.path))

/-- No two chapter rows share the natural key (manga_id, number). -/
def chapterKeysUnique (st : Store) : Prop :=
  st.chapters.Pairwise (fun r s => ¬(r.manga_id = s.manga_id ∧ r.number = s.number))

/-- No two page rows share the natural key (chapter_id, rank). -/
def pageKeysUnique (st : Store) : Prop :=
  st.pages.Pairwise (fun r s => ¬(r.chapter_id = s.chapter_id ∧ r.rank = s.rank))

/-- All three cache tables are free of natural-key duplicates. -/
def keysUnique (st : Store) : Prop :=
  mangaKeysUnique st ∧ chapterKeysUnique st ∧ pageKeysUnique st

/-- Inserting pages never touches the manga table. -/
theorem insertPagesFrom_mangas (cid : Int) (us : List String) :
    ∀ (st : Store) (k : Nat), (insertPagesFrom st cid k us).mangas = st.mangas := by
  induction us with
  | nil => intro st k; rfl
  | cons u us ih =>
    intro st k
    unfold insertPagesFrom
    dsimp only
    split <;> exact ih _ _

/-- Inserting pages keeps every existing page row. -/
theorem insertPagesFrom_mono (cid : Int) (us : List String) :
    ∀ (st : Store) (k : Nat) (p : PageRow), p ∈ st.pages →
      p ∈ (insertPagesFrom st cid k us).pages := by
  induction us with
  | nil => intro st k p hp; exact hp
  | cons u us ih =>
    intro st k p hp
    unfold insertPagesFrom
    dsimp only
    split
    · exact ih _ _ p hp
    · exact ih _ _ p (by simp [hp])

/-- After inserting `us` from rank `k`, every rank `k + i` (`i < |us|`) is
present for the chapter. -/
theorem insertPagesFrom_covers (cid : Int) (us : List String) :
    ∀ (st : Store) (k : Nat) (i : Nat), i < us.length →
      ∃ p ∈ (insertPagesFrom st cid k us).pages,
        p.chapter_id = cid ∧ p.rank = ((k + i : Nat) : Int) := by
  induction us with
  | nil => intro st k i hi; simp at hi
  | cons u us ih =>
    intro st k i hi
    unfold insertPagesFrom
    dsimp only
    cases i with
    | zero =>
      split
      · rename_i hfind
        rw [List.find?_isSome] at hfind
        obtain ⟨p, hp, hkey⟩ := hfind
        simp only [Bool.and_eq_true, beq_iff_eq] at hkey
        refine ⟨p, insertPagesFrom_mono cid us st (k + 1) p hp, hkey.1, ?_⟩
        rw [hkey.2]
        simp
      · refine ⟨{ id := freshPageId st, chapter_id := cid, rank := (k : Int), url := u },
          insertPagesFrom_mono cid us _ (k + 1) _ (by simp), rfl, by simp⟩
    | succ j =>
      have hj : j < us.length := by simpa using hi
      split
      · obtain ⟨p, hp, h1, h2⟩ := ih st (k + 1) j hj
        exact ⟨p, hp, h1, by rw [h2]; push_cast; ring⟩
      · obtain ⟨p, hp, h1, h2⟩ := ih _ (k + 1) j hj
        exact ⟨p, hp, h1, by rw [h2]; push_cast; ring⟩

/-- When every rank to be inserted is already present for the chapter, the
insert is a no-op. -/
theorem insertPagesFrom_skip (cid : Int) (us : List String) :
    ∀ (st : Store) (k : Nat),
      (∀ i < us.length, ∃ p ∈ st.pages, p.chapter_id = cid ∧ p.rank = ((k + i : Nat) : Int)) →
      insertPagesFrom st cid k us = st := by
  induction us with
  | nil => intro st k h; rfl
  | cons u us ih =>
    intro st k h
    unfold insertPagesFrom
    dsimp only
    have h0 : (st.pages.find? (fun p => p.chapter_id == cid && p.rank == ((k : Nat) : Int))).isSome = true := by
      rw [List.find?_isSome]
      obtain ⟨p, hp, h1, h2⟩ := h 0 (by simp)
      exact ⟨p, hp, by simp [h1, h2]⟩
    rw [if_pos h0]
    apply ih st (k + 1)
    intro i hi
    obtain ⟨p, hp, h1, h2⟩ := h (i + 1) (by simpa using hi)
    exact ⟨p, hp, h1, by rw [h2]; push_cast; ring⟩

/-- Running the same page insert twice leaves the store unchanged. -/
theorem insert_pages_idempotent (st : Store) (cid : Int) (urls : List String) :
    insert_pages (insert_pages st cid urls) cid urls = insert_pages st cid urls := by
  unfold insert_pages
  apply insertPagesFrom_skip
  intro i hi
  obtain ⟨p, hp, h1, h2⟩ := insertPagesFrom_covers cid urls st 0 i hi
  exact ⟨p, hp, h1, by rw [h2]⟩

/-- Conflict-ignoring page inserts preserve natural-key uniqueness. -/
theorem insertPagesFrom_unique (cid : Int) (us : List String) :
    ∀ (st : Store) (k : Nat), pageKeysUnique st →
      pageKeysUnique (insertPagesFrom st cid k us) := by
  induction us with
  | nil => intro st k h; exact h
  | cons u us ih =>
    intro st k h
    unfold insertPagesFrom
    dsimp only
    split
    · exact ih _ _ h
    · rename_i hfind
      apply ih
      unfold pageKeysUnique at h ⊢
      simp only [List.pairwise_append, List.pairwise_cons, List.Pairwise.nil]
      refine ⟨h, by simp, ?_⟩
      intro a ha b hb
      simp only [List.mem_singleton] at hb
      subst hb
      have hnone : st.pages.find? (fun p => p.chapter_id == cid && p.rank == ((k : Nat) : Int)) = none := by
        cases hcase : st.pages.find? (fun p => p.chapter_id == cid && p.rank == ((k : Nat) : Int)) with
        | none => rfl
        | some p => rw [hcase] at hfind; simp at hfind
      rw [List.find?_eq_none] at hnone
      have := hnone a ha
      simp only [Bool.and_eq_true, beq_iff_eq, not_and] at this
      intro hcon
      exact this hcon.1 (by simpa using hcon.2)

/-- Inserting chapters never touches the manga table. -/
theorem insertChaptersGo_mangas (mid : Int) (src : String) (chs : List ChapterData) :
    ∀ st : Store, (insertChaptersGo mid src st chs).mangas = st.mangas := by
  induction chs with
  | nil => intro st; rfl
  | cons c chs ih =>
    intro st
    unfold insertChaptersGo
    dsimp only
    split <;> exact ih _

/-- Inserting chapters never touches the page table. -/
theorem insertChaptersGo_pages (mid : Int) (src : String) (chs : List ChapterData) :
    ∀ st : Store, (insertChaptersGo mid src st chs).pages = st.pages := by
  induction chs with
  | nil => intro st; rfl
  | cons c chs ih =>
    intro st
    unfold insertChaptersGo
    dsimp only
    split <;> exact ih _

/-- Inserting chapters keeps every existing chapter row. -/
theorem insertChaptersGo_mono (mid : Int) (src : String) (chs : List ChapterData) :
    ∀ (st : Store) (r : ChapterRow), r ∈ st.chapters →
      r ∈ (insertChaptersGo mid src st chs).chapters := by
  induction chs with
  | nil => intro st r hr; exact hr
  | cons c chs ih =>
    intro st r hr
    unfold insertChaptersGo
    dsimp only
    split
    · exact ih _ r hr
    · exact ih _ r (by simp [hr])

/-- After a chapter insert, every fetched chapter's natural key is present. -/
theorem insertChaptersGo_covers (mid : Int) (src : String) (chs : List ChapterData) :
    ∀ (st : Store), ∀ c ∈ chs,
      ∃ r ∈ (insertChaptersGo mid src st chs).chapters,
        r.manga_id = mid ∧ r.number = c.number := by
  induction chs with
  | nil => intro st c hc; simp at hc
  | cons c0 chs ih =>
    intro st c hc
    rcases List.mem_cons.mp hc with h | h
    · subst h
      unfold insertChaptersGo
      dsimp only
      split
      · rename_i hfind
        rw [List.find?_isSome] at hfind
        obtain ⟨r, hr, hkey⟩ := hfind
        simp only [Bool.and_eq_true, beq_iff_eq] at hkey
        exact ⟨r, insertChaptersGo_mono mid src chs st r hr, hkey.1, hkey.2⟩
      · exact ⟨{ id := freshChapterId st, manga_id := mid, source := src, number := c.number, path := c.path }, insertChaptersGo_mono mid src chs _ _ (by simp), rfl, rfl⟩
    · unfold insertChaptersGo
      dsimp only
      split
      · exact ih st c h
      · exact ih _ c h

/-- When every fetched chapter's natural key is already present, the insert
is a no-op. -/
theorem insertChaptersGo_skip (mid : Int) (src : String) (chs : List ChapterData) :
    ∀ (st : Store),
      (∀ c ∈ chs, ∃ r ∈ st.chapters, r.manga_id = mid ∧ r.number = c.number) →
      insertChaptersGo mid src st chs = st := by
  induction chs with
  | nil => intro st _; rfl
  | cons c chs ih =>
    intro st h
    unfold insertChaptersGo
    dsimp only
    have h0 : (st.chapters.find? (fun r => r.manga_id == mid && r.number == c.number)).isSome = true := by
      rw [List.find?_isSome]
      obtain ⟨r, hr, h1, h2⟩ := h c (by simp)
      exact ⟨r, hr, by simp [h1, h2]⟩
    rw [if_pos h0]
    exact ih st (fun c2 hc2 => h c2 (by simp [hc2]))

/-- Running the same chapter insert twice leaves the store unchanged. -/
theorem insert_chapters_idempotent (st : Store) (mid : Int) (chs : List ChapterData) :
    insert_chapters (insert_chapters st mid chs) mid chs = insert_chapters st mid chs := by
  unfold insert_chapters
  have hm : get_manga (insertChaptersGo mid
      (match get_manga st mid with | some m => m.source | none => "") st chs) mid =
      get_manga st mid := by
    unfold get_manga
    rw [insertChaptersGo_mangas]
  rw [hm]
  apply insertChaptersGo_skip
  intro c hc
  exact insertChaptersGo_covers mid _ chs st c hc

/-- Conflict-ignoring chapter inserts preserve natural-key uniqueness. -/
theorem insertChaptersGo_unique (mid : Int) (src : String) (chs : List ChapterData) :
    ∀ st : Store, chapterKeysUnique st →
      chapterKeysUnique (insertChaptersGo mid src st chs) := by
  induction chs with
  | nil => intro st h; exact h
  | cons c chs ih =>
    intro st h
    unfold insertChaptersGo
    dsimp only
    split
    · exact ih _ h
    · rename_i hfind
      apply ih
      unfold chapterKeysUnique at h ⊢
      simp only [List.pairwise_append, List.pairwise_cons, List.Pairwise.nil]
      refine ⟨h, by simp, ?_⟩
      intro a ha b hb
      simp only [List.mem_singleton] at hb
      subst hb
      have hnone : st.chapters.find? (fun r => r.manga_id == mid && r.number == c.number) = none := by
        cases hcase : st.chapters.find? (fun r => r.manga_id == mid && r.number == c.number) with
        | none => rfl
        | some r => rw [hcase] at hfind; simp at hfind
      rw [List.find?_eq_none] at hnone
      have := hnone a ha
      simp only [Bool.and_eq_true, beq_iff_eq, not_and] at this
      intro hcon
      exact this hcon.1 hcon.2

/-- Inserting mangas never touches the chapter table. -/
theorem insert_mangas_chapters (source : String) (ms : List MangaData) :
    ∀ st : Store, (insert_mangas st source ms).1.chapters = st.chapters := by
  induction ms with
  | nil => intro st; rfl
  | cons m ms ih =>
    intro st
    unfold insert_mangas
    cases st.mangas.find? (fun r => r.source == source && r.path == m.path) with
    | some r => exact ih st
    | none => exact ih _

/-- Inserting mangas never touches the page table. -/
theorem insert_mangas_pages (source : String) (ms : List MangaData) :
    ∀ st : Store, (insert_mangas st source ms).1.pages = st.pages := by
  induction ms with
  | nil => intro st; rfl
  | cons m ms ih =>
    intro st
    unfold insert_mangas
    cases st.mangas.find? (fun r => r.source == source && r.path == m.path) with
    | some r => exact ih st
    | none => exact ih _

/-- Inserting mangas keeps every existing manga row. -/
theorem insert_mangas_mono (source : String) (ms : List MangaData) :
    ∀ (st : Store) (r : MangaRow), r ∈ st.mangas →
      r ∈ (insert_mangas st source ms).1.mangas := by
  induction ms with
  | nil => intro st r hr; exact hr
  | cons m ms ih =>
    intro st r hr
    unfold insert_mangas
    cases st.mangas.find? (fun r0 => r0.source == source && r0.path == m.path) with
    | some r0 => exact ih st r hr
    | none => exact ih _ r (by simp [hr])

/-- After a manga insert, every fetched manga's natural key is present. -/
theorem insert_mangas_covers (source : String) (ms : List MangaData) :
    ∀ (st : Store), ∀ m ∈ ms,
      ∃ r ∈ (insert_mangas st source ms).1.mangas,
        r.source = source ∧ r.path = m.path := by
  induction ms with
  | nil => intro st m hm; simp at hm
  | cons m0 ms ih =>
    intro st m hm
    rcases List.mem_cons.mp hm with h | h
    · subst h
      unfold insert_mangas
      cases hf : st.mangas.find? (fun r => r.source == source && r.path == m.path) with
      | some r =>
        have hkey : (r.source == source && r.path == m.path) = true :=
          List.find?_some (p := fun r : MangaRow => r.source == source && r.path == m.path) hf
        simp only [Bool.and_eq_true, beq_iff_eq] at hkey
        exact ⟨r, insert_mangas_mono source ms st r (List.mem_of_find?_eq_some hf), hkey.1, hkey.2⟩
      | none =>
        exact ⟨{ id := freshMangaId st, source := source, title := m.title, path := m.path, thumbnail := m.thumbnail, author := [], status := none, description := none }, insert_mangas_mono source ms _ _ (by simp), rfl, rfl⟩
    · unfold insert_mangas
      cases st.mangas.find? (fun r => r.source == source && r.path == m0.path) with
      | some r => exact ih st m h
      | none => exact ih _ m h

/-- When every fetched manga's natural key is already present, the insert
is a no-op. -/
theorem insert_mangas_skip (source : String) (ms : List MangaData) :
    ∀ (st : Store),
      (∀ m ∈ ms, ∃ r ∈ st.mangas, r.source = source ∧ r.path = m.path) →
      (insert_mangas st source ms).1 = st := by
  induction ms with
  | nil => intro st _; rfl
  | cons m ms ih =>
    intro st h
    unfold insert_mangas
    have h0 : (st.mangas.find? (fun r => r.source == source && r.path == m.path)).isSome = true := by
      rw [List.find?_isSome]
      obtain ⟨r, hr, h1, h2⟩ := h m (by simp)
      exact ⟨r, hr, by simp [h1, h2]⟩
    cases hf : st.mangas.find? (fun r => r.source == source && r.path == m.path) with
    | none => rw [hf] at h0; simp at h0
    | some r => exact ih st (fun m2 hm2 => h m2 (by simp [hm2]))

/-- Running the same manga insert twice leaves the store unchanged. -/
theorem insert_mangas_idempotent (st : Store) (source : String) (ms : List MangaData) :
    (insert_mangas (insert_mangas st source ms).1 source ms).1 =
      (insert_mangas st source ms).1 := by
  apply insert_mangas_skip
  intro m hm
  exact insert_mangas_covers source ms st m hm

/-- Conflict-ignoring manga inserts preserve natural-key uniqueness. -/
theorem insert_mangas_unique (source : String) (ms : List MangaData) :
    ∀ st : Store, mangaKeysUnique st →
      mangaKeysUnique (insert_mangas st source ms).1 := by
  induction ms with
  | nil => intro st h; exact h
  | cons m ms ih =>
    intro st h
    unfold insert_mangas
    cases hf : st.mangas.find? (fun r => r.source == source && r.path == m.path) with
    | some r => exact ih st h
    | none =>
      apply ih
      unfold mangaKeysUnique at h ⊢
      simp only [List.pairwise_append, List.pairwise_cons, List.Pairwise.nil]
      refine ⟨h, by simp, ?_⟩
      intro a ha b hb
      simp only [List.mem_singleton] at hb
      subst hb
      rw [List.find?_eq_none] at hf
      have := hf a ha
      simp only [Bool.and_eq_true, beq_iff_eq, not_and] at this
      intro hcon
      exact this hcon.1 hcon.2

/-- C6: every cache insert ignores conflicts on its natural key — (source,
path) for mangas, (manga, number) for chapters, (chapter, rank) for pages —
so key-uniqueness of the persisted rows is preserved by every write, and
running the same fetch-and-cache insert twice in sequence leaves the
persisted rows identical (the second pass is a no-op). -/
theorem c6_natural_key_uniqueness :
    (∀ (st : Store) (source : String) (ms : List MangaData), keysUnique st →
      keysUnique (insert_mangas st source ms).1) ∧
    (∀ (st : Store) (mid : Int) (chs : List ChapterData), keysUnique st →
      keysUnique (insert_chapters st mid chs)) ∧
    (∀ (st : Store) (cid : Int) (urls : List String), keysUnique st →
      keysUnique (insert_pages st cid urls)) ∧
    (∀ (st : Store) (source : String) (ms : List MangaData),
      (insert_mangas (insert_mangas st source ms).1 source ms).1 =
        (insert_mangas st source ms).1) ∧
    (∀ (st : Store) (mid : Int) (chs : List ChapterData),
      insert_chapters (insert_chapters st mid chs) mid chs =
        insert_chapters st mid chs) ∧
    (∀ (st : Store) (cid : Int) (urls : List String),
      insert_pages (insert_pages st cid urls) cid urls =
        insert_pages st cid urls) := by
  refine ⟨?_, ?_, ?_, ?_, ?_, ?_⟩
  · intro st source ms ⟨h1, h2, h3⟩
    refine ⟨insert_mangas_unique source ms st h1, ?_, ?_⟩
    · unfold chapterKeysUnique at h2 ⊢
      rw [insert_mangas_chapters]
      exact h2
    · unfold pageKeysUnique at h3 ⊢
      rw [insert_mangas_pages]
      exact h3
  · intro st mid chs ⟨h1, h2, h3⟩
    unfold insert_chapters
    refine ⟨?_, insertChaptersGo_unique mid _ chs st h2, ?_⟩
    · unfold mangaKeysUnique at h1 ⊢
      rw [insertChaptersGo_mangas]
      exact h1
    · unfold pageKeysUnique at h3 ⊢
      rw [insertChaptersGo_pages]
      exact h3
  · intro st cid urls ⟨h1, h2, h3⟩
    unfold insert_pages
    refine ⟨?_, ?_, insertPagesFrom_unique cid urls st 0 h3⟩
    · unfold mangaKeysUnique at h1 ⊢
      rw [insertPagesFrom_mangas]
      exact h1
    · unfold chapterKeysUnique at h2 ⊢
      rw [insertPagesFrom_chapters]
      exact h2
  · intro st source ms
    exact insert_mangas_idempotent st source ms
  · intro st mid chs
    exact insert_chapters_idempotent st mid chs
  · intro st cid urls
    exact insert_pages_idempotent st cid urls

/-- The store used by the C6 witness: one row in each table. -/
def wStoreSix : Store :=
  { mangas := [{ id := 1, source := "mangasee", title := "One Piece",
                 path := "/m/one-piece", thumbnail := "/t.png", author := [],
                 status := none, description := none }],
    chapters := [wChapterTwo],
    pages := [{ id := 1, chapter_id := 7, rank := 0, url := "u0" }] }

/-- The fetched manga used by the C6 witness — it collides with the cached
row's natural key. -/
def wMangaDataSix : MangaData :=
  { title := "One Piece", path := "/m/one-piece", thumbnail := "/t2.png" }

/-- The fetched chapter used by the C6 witness. -/
def wChapterDataSix : ChapterData := { number := "3", path := "/c/3" }

/-- Witness for C6: on a store with one row per table, conflict-ignoring
inserts keep keys unique and are idempotent. -/
theorem c6_natural_key_uniqueness_witness :
    keysUnique wStoreSix ∧
    keysUnique (insert_mangas wStoreSix "mangasee" [wMangaDataSix]).1 ∧
    keysUnique (insert_chapters wStoreSix 1 [wChapterDataSix]) ∧
    keysUnique (insert_pages wStoreSix 7 ["u0", "u1"]) ∧
    (insert_mangas (insert_mangas wStoreSix "mangasee" [wMangaDataSix]).1
        "mangasee" [wMangaDataSix]).1 =
      (insert_mangas wStoreSix "mangasee" [wMangaDataSix]).1 ∧
    insert_chapters (insert_chapters wStoreSix 1 [wChapterDataSix]) 1 [wChapterDataSix] =
      insert_chapters wStoreSix 1 [wChapterDataSix] ∧
    insert_pages (insert_pages wStoreSix 7 ["u0", "u1"]) 7 ["u0", "u1"] =
      insert_pages wStoreSix 7 ["u0", "u1"] :=
  have hK : keysUnique wStoreSix := by
    simp [keysUnique, mangaKeysUnique, chapterKeysUnique, pageKeysUnique, wStoreSix]
  ⟨hK,
   c6_natural_key_uniqueness.1 wStoreSix "mangasee" [wMangaDataSix] hK,
   c6_natural_key_uniqueness.2.1 wStoreSix 1 [wChapterDataSix] hK,
   c6_natural_key_uniqueness.2.2.1 wStoreSix 7 ["u0", "u1"] hK,
   c6_natural_key_uniqueness.2.2.2.1 wStoreSix "mangasee" [wMangaDataSix],
   c6_natural_key_uniqueness.2.2.2.2.1 wStoreSix 1 [wChapterDataSix],
   c6_natural_key_uniqueness.2.2.2.2.2 wStoreSix 7 ["u0", "u1"]⟩

/-- A successful cached-pages read certifies the owning chapter row and
reports its manga id. -/
theorem get_pages_repo_chapter (st : Store) (cid : Int) (resp : Int × List String)
    (h : get_pages_repo st cid = some resp) :
    ∃ ch, get_chapter st cid = some ch ∧ resp.1 = ch.manga_id := by
  unfold get_pages_repo at h
  cases hch : get_chapter st cid with
  | none => rw [hch] at h; simp at h
  | some ch =>
    rw [hch] at h
    simp only [Option.bind_eq_bind, Option.some_bind] at h
    refine ⟨ch, rfl, ?_⟩
    by_cases he : (pagesOf st cid).isEmpty
    · rw [if_pos he] at h; simp at h
    · rw [if_neg he] at h
      simp only [Option.some_inj] at h
      rw [← h]

/-- Whenever `get_pages` succeeds, its response is exactly what the
cache reports for the chapter in the returned store. -/
theorem get_pages_ok_repo (st : Store) (exts : Exts) (cid : Int) (r : Bool)
    (resp : Int × List String)
    (h : (get_pages st exts cid r).2 = .ok resp) :
    get_pages_repo (get_pages st exts cid r).1 cid = some resp := by
  unfold get_pages at h ⊢
  dsimp only at h ⊢
  split at h
  · rename_i resp0 hrepo
    simp only at h
    rw [Except.ok.injEq] at h
    subst h
    simpa using hrepo
  · rename_i hrepo
    split at h
    · simp at h
    · rename_i ch hch
      split at h
      · simp at h
      · rename_i ext hext
        split at h
        · simp at h
        · rename_i urls hurls
          split at h
          · rename_i resp0 hrepo2
            simp only at h
            rw [Except.ok.injEq] at h
            subst h
            simpa using hrepo2
          · simp at h

/-- A successful cached-chapters read returns precisely the manga's rows. -/
theorem get_chapters_repo_some (st : Store) (mid : Int) (l : List ChapterRow)
    (h : get_chapters_repo st mid = some l) :
    l = st.chapters.filter (fun c => c.manga_id == mid) := by
  unfold get_chapters_repo at h
  dsimp only at h
  split at h
  · simp at h
  · simp only [Option.some_inj] at h
    rw [h]

/-- `insert_chapters` keeps every existing chapter row. -/
theorem insert_chapters_mono (st : Store) (mid : Int) (chs : List ChapterData)
    (r : ChapterRow) (hr : r ∈ st.chapters) :
    r ∈ (insert_chapters st mid chs).chapters := by
  unfold insert_chapters
  exact insertChaptersGo_mono mid _ chs st r hr

/-- Whenever `get_chapters` succeeds, every chapter row of the manga
already in the store appears in the result. -/
theorem get_chapters_ok_mem (st : Store) (exts : Exts) (mid : Int) (r : Bool)
    (chs : List ChapterRow) (h : (get_chapters st exts mid r).2 = .ok chs) :
    ∀ ch ∈ st.chapters, ch.manga_id = mid → ch ∈ chs := by
  intro ch hch hmid
  unfold get_chapters at h
  split at h
  · rename_i chs0 hsome
    have hrepo : get_chapters_repo st mid = some chs0 := by
      cases r with
      | true => simp at hsome
      | false => simpa using hsome
    simp only at h
    rw [Except.ok.injEq] at h
    subst h
    rw [get_chapters_repo_some st mid chs0 hrepo]
    rw [List.mem_filter]
    exact ⟨hch, by simp [hmid]⟩
  · split at h
    · simp at h
    · rename_i manga hmanga
      split at h
      · simp at h
      · rename_i ext hext
        split at h
        · simp at h
        · rename_i newchs hnew
          dsimp only at h
          split at h
          · rename_i out hout
            simp only at h
            rw [Except.ok.injEq] at h
            subst h
            rw [get_chapters_repo_some _ mid out hout]
            rw [List.mem_filter]
            exact ⟨insert_chapters_mono st mid newchs ch hch, by simp [hmid]⟩
          · simp at h

/-- C3 (amended): each sub-fetch failure of the composite read
short-circuits the whole call — but as a panic (the `unwrap` of the failed
sub-result), not as a typed error — and no partial aggregate is returned;
when all three sub-fetches succeed, the requested chapter id is
necessarily found among the chapters result (so the absent-chapter branch,
which would also panic rather than yield a typed `ChapterNotFound`, cannot
fire after a successful pages fetch) and the aggregate view is returned. -/
theorem c3_read_failure_semantics :
    (∀ (st : Store) (exts : Exts) (cid : Int) (r : Bool) (st1 : Store) (e : Failure),
      get_pages st exts cid r = (st1, .error e) →
      read_view st exts cid r =
        (st1, .error (.panicked "called Result::unwrap on an Err value"))) ∧
    (∀ (st : Store) (exts : Exts) (cid : Int) (r : Bool) (st1 st2 : Store)
        (mid : Int) (urls : List String) (e : Failure),
      get_pages st exts cid r = (st1, .ok (mid, urls)) →
      get_chapters st1 exts mid r = (st2, .error e) →
      read_view st exts cid r =
        (st2, .error (.panicked "called Result::unwrap on an Err value"))) ∧
    (∀ (st : Store) (exts : Exts) (cid : Int) (r : Bool) (st1 st2 st3 : Store)
        (mid : Int) (urls : List String) (chs : List ChapterRow) (e : Failure),
      get_pages st exts cid r = (st1, .ok (mid, urls)) →
      get_chapters st1 exts mid r = (st2, .ok chs) →
      get_manga_info st2 exts mid = (st3, .error e) →
      read_view st exts cid r =
        (st3, .error (.panicked "called Result::unwrap on an Err value"))) ∧
    (∀ (st : Store) (exts : Exts) (cid : Int) (r : Bool) (st1 st2 st3 : Store)
        (mid : Int) (urls : List String) (chs : List ChapterRow) (manga : MangaRow),
      get_pages st exts cid r = (st1, .ok (mid, urls)) →
      get_chapters st1 exts mid r = (st2, .ok chs) →
      get_manga_info st2 exts mid = (st3, .ok manga) →
      ∃ chapter, chs.find? (fun c => c.id == cid) = some chapter ∧
        read_view st exts cid r =
          (st3, .ok { manga := manga, chapters := chs,
                      chapter := chapter, pages := urls })) := by
  refine ⟨?_, ?_, ?_, ?_⟩
  · intro st exts cid r st1 e hp
    unfold read_view
    rw [hp]
  · intro st exts cid r st1 st2 mid urls e hp hc
    unfold read_view
    rw [hp]
    simp only
    rw [hc]
  · intro st exts cid r st1 st2 st3 mid urls chs e hp hc hm
    unfold read_view
    rw [hp]
    simp only
    rw [hc]
    simp only
    rw [hm]
  · intro st exts cid r st1 st2 st3 mid urls chs manga hp hc hm
    have hrepo := get_pages_ok_repo st exts cid r (mid, urls) (by rw [hp])
    rw [hp] at hrepo
    obtain ⟨ch, hch, hmid⟩ := get_pages_repo_chapter st1 cid (mid, urls) hrepo
    have hch' : st1.chapters.find? (fun c => c.id == cid) = some ch := hch
    have hchmem : ch ∈ st1.chapters := List.mem_of_find?_eq_some hch'
    have hcid : (ch.id == cid) = true :=
      List.find?_some (p := fun c : ChapterRow => c.id == cid) hch'
    have hmem : ch ∈ chs :=
      get_chapters_ok_mem st1 exts mid r chs (by rw [hc]) ch hchmem (by
        simpa using hmid.symm)
    have hfind : (chs.find? (fun c => c.id == cid)).isSome = true :=
      List.find?_isSome.mpr ⟨ch, hmem, hcid⟩
    obtain ⟨chapter, hchap⟩ := Option.isSome_iff_exists.mp hfind
    refine ⟨chapter, hchap, ?_⟩
    unfold read_view
    rw [hp]
    simp only
    rw [hc]
    simp only
    rw [hm]
    simp only
    rw [hchap]

/-- Counterexample to C3: on the empty store the pages sub-fetch fails with
the typed error `pages not found`, and the composite read surfaces it as a
panic — not as a typed error reaching the caller. -/
theorem c3_counterexample :
    (get_pages emptyStore noExts 10 false).2 = .error (.err "pages not found") ∧
    (read_view emptyStore noExts 10 false).2 =
      .error (.panicked "called Result::unwrap on an Err value") ∧
    isTypedError (read_view emptyStore noExts 10 false).2 = false :=
  ⟨rfl, rfl, rfl⟩

/-- The store used by the C3 witness: a complete manga, its chapter and one
cached page, so every sub-fetch is a cache hit. -/
def wStoreThree : Store :=
  { mangas := [wRowFour],
    chapters := [wChapterTwo],
    pages := [{ id := 9, chapter_id := 7, rank := 0, url := "p0" }] }

/-- Witness for C3 (amended): the all-cache-hit aggregate on `wStoreThree`
and the panicking short-circuit on the empty store. -/
theorem c3_read_failure_semantics_witness :
    get_pages wStoreThree noExts 7 false = (wStoreThree, .ok (1, ["p0"])) ∧
    get_chapters wStoreThree noExts 1 false = (wStoreThree, .ok [wChapterTwo]) ∧
    get_manga_info wStoreThree noExts 1 = (wStoreThree, .ok wRowFour) ∧
    (∃ chapter, ([wChapterTwo].find? (fun c => c.id == 7)) = some chapter ∧
      read_view wStoreThree noExts 7 false =
        (wStoreThree, .ok { manga := wRowFour, chapters := [wChapterTwo],
                            chapter := chapter, pages := ["p0"] })) ∧
    read_view emptyStore noExts 10 false =
      (emptyStore, .error (.panicked "called Result::unwrap on an Err value")) :=
  ⟨rfl, rfl, rfl,
   c3_read_failure_semantics.2.2.2 wStoreThree noExts 7 false
     wStoreThree wStoreThree wStoreThree 1 ["p0"] [wChapterTwo] wRowFour rfl rfl rfl,
   c3_read_failure_semantics.1 emptyStore noExts 10 false emptyStore
     (.err "pages not found") rfl⟩

/-- Unloading removes every handle registered under the name. -/
theorem countName_removeName (r : Registry) (n : String) :
    countName (removeName r n) n = 0 := by
  unfold countName removeName
  rw [List.length_eq_zero, List.filter_eq_nil_iff]
  intro p hp
  rw [List.mem_filter] at hp
  simp only [bne_iff_ne, ne_eq] at hp
  simp [hp.2]

/-- A name with no registered handle has zero handles. -/
theorem hasName_count_zero (r : Registry) (n : String)
    (h : hasName r n = false) : countName r n = 0 := by
  unfold hasName at h
  unfold countName
  rw [List.length_eq_zero, List.filter_eq_nil_iff]
  intro p hp
  cases hf : r.find? (fun p => p.1 == n) with
  | some q => rw [hf] at h; simp at h
  | none =>
    rw [List.find?_eq_none] at hf
    exact fun hc => absurd hc (by simpa using hf p hp)

/-- After unloading a name, no handle for it is registered. -/
theorem hasName_removeName (r : Registry) (n : String) :
    hasName (removeName r n) n = false := by
  unfold hasName removeName
  cases hf : (r.filter (fun p => p.1 != n)).find? (fun p => p.1 == n) with
  | none => simp
  | some p =>
    have h1 : (p.1 == n) = true :=
      List.find?_some (p := fun p : String × LoadedExt => p.1 == n) hf
    have h2 := List.mem_of_find?_eq_some hf
    rw [List.mem_filter] at h2
    rw [beq_iff_eq] at h1
    exact absurd h1 (by simpa using h2.2)

/-- Handle count after registering one more handle. -/
theorem countName_append_one (r : Registry) (x : String × LoadedExt) (n : String) :
    countName (r ++ [x]) n = countName r n + (if x.1 == n then 1 else 0) := by
  unfold countName
  rw [List.filter_append]
  simp only [List.length_append]
  congr 1
  by_cases hx : (x.1 == n) = true <;> simp [hx]

/-- Reading a path just written yields exactly the written bytes. -/
theorem fs_read_put (fs : Fs) (p : String) (bytes : List Nat) :
    (fs.put p bytes).read p = some bytes := by
  simp [Fs.put, Fs.read]

/-- C5: on a successful install, if a handle for the source is loaded it is
unloaded (and its binary best-effort deleted — the delete outcome never
changes the registry, trace or result) strictly before the download, the
file write and the reload, as the exact event trace shows; the load is
invoked only when no handle is registered for the name (the registry
snapshot at every traced step holds at most one handle for it), and the
load is applied to precisely the bytes that were downloaded and fully
written. -/
theorem c5_install_ordering
    (catalog : List SourceIndex) (plat : Platform) (registry : Registry) (fs : Fs)
    (n pp : String) (bytes : List Nat) (deleteOk : Bool)
    (loadFn : List Nat → Option LoadedExt) (e : SourceIndex) (suffix : String)
    (h : LoadedExt)
    (hfind : catalog.find? (fun s => s.name == n) = some e)
    (hplat : binSuffix plat = some suffix)
    (hload : loadFn bytes = some h) :
    (hasName registry n = true →
      (install_source catalog plat registry fs n pp (some bytes) true deleteOk loadFn).trace =
        [(Event.unload n, removeName registry n),
         (Event.deleteFile (pp ++ "/" ++ n ++ "." ++ suffix), removeName registry n),
         (Event.download n, removeName registry n),
         (Event.writeFile (pp ++ "/" ++ n ++ "." ++ suffix), removeName registry n),
         (Event.load (pp ++ "/" ++ n ++ "." ++ suffix) bytes,
            removeName registry n ++ [(h.name, h)])] ∧
      (install_source catalog plat registry fs n pp (some bytes) true deleteOk loadFn).registry =
        removeName registry n ++ [(h.name, h)] ∧
      (install_source catalog plat registry fs n pp (some bytes) true deleteOk loadFn).outcome =
        .ok () ∧
      countName (removeName registry n) n = 0 ∧
      (∀ er ∈ (install_source catalog plat registry fs n pp (some bytes) true deleteOk loadFn).trace,
        countName er.2 n ≤ 1)) ∧
    (hasName registry n = false →
      (install_source catalog plat registry fs n pp (some bytes) true deleteOk loadFn).trace =
        [(Event.download n, registry),
         (Event.writeFile (pp ++ "/" ++ n ++ "." ++ suffix), registry),
         (Event.load (pp ++ "/" ++ n ++ "." ++ suffix) bytes, registry ++ [(h.name, h)])] ∧
      (install_source catalog plat registry fs n pp (some bytes) true deleteOk loadFn).registry =
        registry ++ [(h.name, h)] ∧
      (install_source catalog plat registry fs n pp (some bytes) true deleteOk loadFn).outcome =
        .ok () ∧
      (∀ er ∈ (install_source catalog plat registry fs n pp (some bytes) true deleteOk loadFn).trace,
        countName er.2 n ≤ 1)) ∧
    ((install_source catalog plat registry fs n pp (some bytes) true true loadFn).trace =
      (install_source catalog plat registry fs n pp (some bytes) true false loadFn).trace ∧
     (install_source catalog plat registry fs n pp (some bytes) true true loadFn).registry =
      (install_source catalog plat registry fs n pp (some bytes) true false loadFn).registry ∧
     (install_source catalog plat registry fs n pp (some bytes) true false loadFn).outcome =
      (install_source catalog plat registry fs n pp (some bytes) true true loadFn).outcome) := by
  have heval : ∀ dOk : Bool,
      install_source catalog plat registry fs n pp (some bytes) true dOk loadFn =
      if hasName registry n then
        ⟨removeName registry n ++ [(h.name, h)],
         (if dOk then fs.del (pp ++ "/" ++ n ++ "." ++ suffix) else fs).put
            (pp ++ "/" ++ n ++ "." ++ suffix) bytes,
         [(Event.unload n, removeName registry n),
          (Event.deleteFile (pp ++ "/" ++ n ++ "." ++ suffix), removeName registry n),
          (Event.download n, removeName registry n),
          (Event.writeFile (pp ++ "/" ++ n ++ "." ++ suffix), removeName registry n),
          (Event.load (pp ++ "/" ++ n ++ "." ++ suffix) bytes,
             removeName registry n ++ [(h.name, h)])],
         .ok ()⟩
      else
        ⟨registry ++ [(h.name, h)],
         fs.put (pp ++ "/" ++ n ++ "." ++ suffix) bytes,
         [(Event.download n, registry),
          (Event.writeFile (pp ++ "/" ++ n ++ "." ++ suffix), registry),
          (Event.load (pp ++ "/" ++ n ++ "." ++ suffix) bytes, registry ++ [(h.name, h)])],
         .ok ()⟩ := by
    intro dOk
    unfold install_source
    rw [hfind, hplat]
    dsimp only
    by_cases hl : hasName registry n
    · rw [if_pos hl]
      simp only [hl, if_true, hasName_removeName, Bool.false_eq_true, if_false,
        fs_read_put, hload, true_and]
      simp
    · rw [if_neg hl]
      rw [Bool.not_eq_true] at hl
      simp only [hl, Bool.false_eq_true, if_false, false_and, fs_read_put, hload]
      simp
  refine ⟨?_, ?_, ?_⟩
  · intro hl
    rw [heval deleteOk, if_pos hl]
    refine ⟨rfl, rfl, rfl, countName_removeName registry n, ?_⟩
    intro er her
    simp only [List.mem_cons, List.not_mem_nil, or_false] at her
    have hc0 := countName_removeName registry n
    have hc1 : countName (removeName registry n ++ [(h.name, h)]) n ≤ 1 := by
      rw [countName_append_one, hc0]
      split <;> omega
    rcases her with h1 | h1 | h1 | h1 | h1 <;> rw [h1] <;> simp [hc0, hc1]
  · intro hl
    rw [heval deleteOk, if_neg (by rw [hl]; exact Bool.false_ne_true)]
    refine ⟨rfl, rfl, rfl, ?_⟩
    intro er her
    simp only [List.mem_cons, List.not_mem_nil, or_false] at her
    have hc0 := hasName_count_zero registry n hl
    have hc1 : countName (registry ++ [(h.name, h)]) n ≤ 1 := by
      rw [countName_append_one, hc0]
      split <;> omega
    rcases her with h1 | h1 | h1 <;> rw [h1] <;> simp [hc0, hc1]
  · rw [heval true, heval false]
    by_cases hl : hasName registry n
    · rw [if_pos hl, if_pos hl]
      exact ⟨rfl, rfl, rfl⟩
    · rw [if_neg hl, if_neg hl]
      exact ⟨rfl, rfl, rfl⟩

/-- The catalog used by the C5 witness. -/
def wCatalogFive : List SourceIndex := [wEntry]

/-- The previously loaded handle used by the C5 witness. -/
def wOldFive : LoadedExt := { name := "mangasee", version := "0.9.0" }

/-- The handle the freshly written binary declares in the C5 witness. -/
def wLoadedFive : LoadedExt := { name := "mangasee", version := "1.0.0" }

/-- The registry used by the C5 witness: version 0.9.0 already loaded. -/
def wRegistryFive : Registry := [("mangasee", wOldFive)]

/-- The loader used by the C5 witness. -/
def wLoadFnFive : List Nat → Option LoadedExt := fun _ => some wLoadedFive

/-- Witness for C5: installing `mangasee` over a loaded 0.9.0 produces the
unload–delete–download–write–load trace, ending with exactly the new
handle. -/
theorem c5_install_ordering_witness :
    hasName wRegistryFive "mangasee" = true ∧
    (install_source wCatalogFive Platform.linux wRegistryFive ⟨[]⟩ "mangasee"
        "/plugins" (some [1, 2, 3]) true true wLoadFnFive).trace =
      [(Event.unload "mangasee", []),
       (Event.deleteFile "/plugins/mangasee.so", []),
       (Event.download "mangasee", []),
       (Event.writeFile "/plugins/mangasee.so", []),
       (Event.load "/plugins/mangasee.so" [1, 2, 3], [("mangasee", wLoadedFive)])] ∧
    (install_source wCatalogFive Platform.linux wRegistryFive ⟨[]⟩ "mangasee"
        "/plugins" (some [1, 2, 3]) true true wLoadFnFive).registry =
      [("mangasee", wLoadedFive)] ∧
    (install_source wCatalogFive Platform.linux wRegistryFive ⟨[]⟩ "mangasee"
        "/plugins" (some [1, 2, 3]) true true wLoadFnFive).outcome = .ok () :=
  have happ := c5_install_ordering wCatalogFive Platform.linux wRegistryFive ⟨[]⟩
    "mangasee" "/plugins" [1, 2, 3] true wLoadFnFive wEntry "so" wLoadedFive
    rfl rfl rfl
  ⟨rfl, (happ.1 rfl).1, (happ.1 rfl).2.1, (happ.1 rfl).2.2.1⟩
